import Mathlib

/-!
Verification development for the Deck Rewind checkpoint/restore engine
(`deck_rewind/snapshot.py`, `deck_rewind/restore.py`).

Strings are modelled as lists of characters (`Str`); Python's
`str.rsplit("_", 2)`, `str.split("_")` and `"_".join` are embedded as
recursive functions on `Str`.
-/

abbrev Str := List Char

/-- Python `s.split("_")`: split a string at every underscore.  The result is
always nonempty; an empty input gives `[[]]`, matching Python's `[""]`. -/
def splitU : Str → List Str
  | [] => [[]]
  | c :: rest =>
    if c = '_' then [] :: splitU rest
    else
      match splitU rest with
      | [] => [[c]]
      | h :: t => (c :: h) :: t

/-- Python `"_".join(parts)`: interleave an underscore between the parts. -/
def joinU : List Str → Str
  | [] => []
  | [x] => x
  | x :: y :: t => x ++ '_' :: joinU (y :: t)

/-- Python `snapshot_id.rsplit("_", 2)`: split off at most two components from
the right; remaining underscores stay inside the first component. -/
def rsplit2 (s : Str) : List Str :=
  let parts := splitU s
  if parts.length ≤ 3 then parts
  else joinU (parts.take (parts.length - 2)) :: parts.drop (parts.length - 2)

/-- Checkpoint-identifier parsing shared by `SnapshotManager.restore` and
`SnapshotManager.delete_snapshot`: `parts = snapshot_id.rsplit("_", 2)`; fail
when fewer than 3 parts, else `game_id = "_".join(parts[:-2])` and
`timestamp = "_".join(parts[-2:])`. -/
def parseSnapshotId (s : Str) : Option (Str × Str) :=
  let parts := rsplit2 s
  if parts.length < 3 then none
  else some (joinU (parts.take (parts.length - 2)),
             joinU (parts.drop (parts.length - 2)))

/-- Python `snapshot_id.split("_")[0]` as used by
`RestoreManager.restore_with_suspension` to derive the game id for the
snapshot lookup: the text before the first underscore. -/
def lookupKey (s : Str) : Str := (splitU s).headD []

/-- Boolean lexicographic less-or-equal on character lists: the order Python
uses when sorting snapshot records by their `YYYYMMDD_HHMMSS` timestamp
string. -/
def lexLe : Str → Str → Bool
  | [], _ => true
  | _ :: _, [] => false
  | a :: as, b :: bs => if a < b then true else if b < a then false else lexLe as bs

/-- Metadata document written by `SnapshotManager.create` into
`metadata.json`: fields `id`, `game_id`, `pid`, `timestamp`, `method`,
`named` (the `created_at` wall-clock field plays no role in any operation
and is omitted). -/
structure Meta where
  id : Str
  game_id : Str
  pid : Nat
  timestamp : Str
  method : Str
  named : Bool
deriving DecidableEq

/-- On-disk state of the `metadata.json` file inside one snapshot directory:
absent, present but unparseable, or valid. -/
inductive MetaFile where
  | missing
  | corrupt
  | valid (m : Meta)
deriving DecidableEq

/-- Embedding of `SnapshotManager._load_metadata`: returns `None` when the
file does not exist, `None` when parsing raises, and the parsed document
otherwise. -/
def loadMetadata : MetaFile → Option Meta
  | .missing => none
  | .corrupt => none
  | .valid m => some m

/-- One snapshot directory `storage_root/<game_id>/<dirname>/` with its
metadata file and the total byte size of its payload files. -/
structure GDir where
  game_id : Str
  dirname : Str
  metaFile : MetaFile
  size : Nat
deriving DecidableEq

/-- One record returned by `SnapshotManager.list_snapshots`: the metadata
fields plus the computed size and the directory path (`gameDir`, `dirname`
components of `storage_root/<gameDir>/<dirname>`). -/
structure Listed where
  id : Str
  timestamp : Str
  pid : Nat
  method : Str
  named : Bool
  size : Nat
  gameDir : Str
  dirname : Str
deriving DecidableEq

/-- Record built for a directory when its metadata loads, as in the loop
bodies of `list_snapshots` and `cleanup_by_size`. -/
def toListedG (d : GDir) : Option Listed :=
  (loadMetadata d.metaFile).map fun m =>
    { id := m.id, timestamp := m.timestamp, pid := m.pid, method := m.method,
      named := m.named, size := d.size, gameDir := d.game_id,
      dirname := d.dirname }

/-- Record built by `list_snapshots(game_id)` for one directory under the
game folder: directories of other games are not visited. -/
def toListed (g : Str) (d : GDir) : Option Listed :=
  if d.game_id = g then toListedG d else none

/-- Sort comparison of `list_snapshots`: `sort(key=timestamp, reverse=True)`,
newest (lexicographically largest timestamp) first. -/
def listedLe (a b : Listed) : Bool := lexLe b.timestamp a.timestamp

/-- Sort comparison of `cleanup_by_size`: `sort(key=timestamp)`, oldest
first. -/
def ascLe (a b : Listed) : Bool := lexLe a.timestamp b.timestamp

/-- Embedding of `SnapshotManager.list_snapshots`: keep directories of the
requested game whose metadata loads, attach size and path, and sort by the
timestamp key, newest first (Python stable sort, modelled by `mergeSort`). -/
def listSnapshots (dirs : List GDir) (g : Str) : List Listed :=
  (dirs.filterMap (toListed g)).mergeSort listedLe

/-- Directory path of a snapshot directory, as the pair
`(game_id, timestamp_dirname)` under the storage root. -/
def pathD (d : GDir) : Str × Str := (d.game_id, d.dirname)

/-- Directory path recorded in a listing entry (its `path` field). -/
def pathL (e : Listed) : Str × Str := (e.gameDir, e.dirname)

/-- Test used by the cleanup loops: does listing entry `s` name the same
directory as listing entry `e`. -/
def samePathB (s e : Listed) : Bool :=
  s.gameDir == e.gameDir && s.dirname == e.dirname

/-- Test used by the cleanup loops: does listing entry `s` name directory
`d`. -/
def matchDirB (s : Listed) (d : GDir) : Bool :=
  s.gameDir == d.game_id && s.dirname == d.dirname

/-- Embedding of `SnapshotManager.cleanup_old_snapshots`: list the game
snapshots (newest first), select the unnamed ("rolling") ones, and when they
exceed the limit delete the overflow `rolling_snapshots[max_snapshots:]` —
the oldest ones — by directory path. -/
def cleanupOldSnapshots (dirs : List GDir) (g : Str) (maxSnapshots : Nat) :
    List GDir :=
  let snaps := listSnapshots dirs g
  let rolling := snaps.filter (fun s => !s.named)
  if rolling.length ≤ maxSnapshots then dirs
  else
    let toDelete := rolling.drop maxSnapshots
    dirs.filter (fun d => !(toDelete.any (fun s => matchDirB s d)))

/-- Total payload byte size of a set of listing records. -/
def sumSizes (l : List Listed) : Nat := (l.map (fun s => s.size)).sum

/-- Deletion loop of `cleanup_by_size`: walk the unnamed records oldest
first, and while the running total still exceeds the ceiling delete the
next record and subtract its size; returns the deleted records (a prefix of
the input). -/
def evictDeleted (maxB : Nat) : List Listed → Nat → List Listed
  | [], _ => []
  | s :: rest, total =>
    if total ≤ maxB then []
    else s :: evictDeleted maxB rest (total - s.size)

/-- Complement of `evictDeleted`: the records the loop leaves in place. -/
def evictKept (maxB : Nat) : List Listed → Nat → List Listed
  | [], _ => []
  | s :: rest, total =>
    if total ≤ maxB then s :: rest
    else evictKept maxB rest (total - s.size)

/-- Embedding of `SnapshotManager.cleanup_by_size`: gather every directory
with loadable metadata across all games, total their sizes, and if the
total exceeds the ceiling delete unnamed records oldest-timestamp-first
until at or under the ceiling or none remain. -/
def cleanupBySize (dirs : List GDir) (maxB : Nat) : List GDir :=
  let allSnaps := dirs.filterMap toListedG
  let total := sumSizes allSnaps
  if total ≤ maxB then dirs
  else
    let unnamed := allSnaps.filter (fun s => !s.named)
    let sorted := unnamed.mergeSort ascLe
    let toDelete := evictDeleted maxB sorted total
    dirs.filter (fun d => !(toDelete.any (fun s => matchDirB s d)))

/-- Method string recorded for a CRIU snapshot. -/
def methodCriu : Str := "criu".data

/-- Method string recorded for a memory-dump snapshot. -/
def methodMemoryDump : Str := "memory_dump".data

/-- Events emitted by `SnapshotManager.create` in order: payload writes by a
backend attempt, then either the final metadata write (success) or the
recursive removal of the partial directory (failure). -/
inductive CEvent where
  | payloadEv
  | metadataEv
  | rmtreeEv
deriving DecidableEq

/-- Configuration flags consulted by `create`: `prefer_criu`,
`fallback_to_memory_dump`, and whether the CRIU probe reports the tool as
available. -/
structure CreateCfg where
  prefer_criu : Bool
  criu_available : Bool
  fallback_to_memory_dump : Bool

/-- Outcomes of the two backend attempts for this process: whether
`_create_criu_snapshot` and `_create_memory_snapshot` would succeed. -/
structure CreateWorld where
  criuOk : Bool
  memOk : Bool

/-- Success of `create`: CRIU is tried when preferred and available; on its
failure the memory-dump fallback is tried when enabled. -/
def createSuccess (cfg : CreateCfg) (w : CreateWorld) : Bool :=
  let criuSuccess := cfg.prefer_criu && cfg.criu_available && w.criuOk
  criuSuccess || ((!criuSuccess && cfg.fallback_to_memory_dump) && w.memOk)

/-- Method recorded in the metadata on success. -/
def createMethodStr (cfg : CreateCfg) (w : CreateWorld) : Str :=
  if cfg.prefer_criu && cfg.criu_available && w.criuOk then methodCriu
  else methodMemoryDump

/-- Ordered trace of filesystem events of one `create` call: each attempted
backend writes payload files into the directory; metadata is written last,
and only on success; on failure the directory is removed. -/
def createTrace (cfg : CreateCfg) (w : CreateWorld) : List CEvent :=
  let criuAttempt := cfg.prefer_criu && cfg.criu_available
  let criuSuccess := criuAttempt && w.criuOk
  let memAttempt := !criuSuccess && cfg.fallback_to_memory_dump
  let success := criuSuccess || (memAttempt && w.memOk)
  (if criuAttempt then [CEvent.payloadEv] else [])
    ++ (if memAttempt then [CEvent.payloadEv] else [])
    ++ (if success then [CEvent.metadataEv] else [CEvent.rmtreeEv])

/-- Final on-disk state of the snapshot directory `create` worked on: a
directory with valid metadata on success, nothing on failure (the partial
directory is removed with `shutil.rmtree`). -/
def createFinalDir (cfg : CreateCfg) (w : CreateWorld) (g ts : Str)
    (pid : Nat) (named : Bool) (sz : Nat) : Option GDir :=
  if createSuccess cfg w then
    some { game_id := g, dirname := ts,
           metaFile := MetaFile.valid
             { id := g ++ '_' :: ts, game_id := g, pid := pid,
               timestamp := ts, method := createMethodStr cfg w,
               named := named },
           size := sz }
  else none

/-- One parsed region line of `/proc/<pid>/maps`: address range, whether the
permission field contains `r`, and whether reading the range out of
`/proc/<pid>/mem` succeeds. -/
structure Region where
  startAddr : Nat
  endAddr : Nat
  readable : Bool
  readOk : Bool
deriving DecidableEq

/-- One line of the memory map: malformed (fewer than two fields, or an
unparseable address range — silently skipped) or a region line. -/
inductive MapLine where
  | malformed
  | region (r : Region)
deriving DecidableEq

/-- Size ceiling of `_create_memory_snapshot`: regions strictly larger than
100 MiB are skipped. -/
def regionLimit : Nat := 100 * 1024 * 1024

/-- Regions saved by the `_create_memory_snapshot` loop: region lines with
read permission and size at most the ceiling whose read succeeds;
per-region read failures are skipped without aborting the loop. -/
def savedRegions (lines : List MapLine) : List Region :=
  lines.filterMap fun l =>
    match l with
    | MapLine.malformed => none
    | MapLine.region r =>
      if r.readable ∧ r.endAddr - r.startAddr ≤ regionLimit ∧ r.readOk
      then some r else none

/-- Overall result of `_create_memory_snapshot`: success iff the memory map
could be read and at least one region was saved. -/
def memSnapshotSuccess (mapsReadable : Bool) (lines : List MapLine) : Bool :=
  mapsReadable && !(savedRegions lines).isEmpty

/-- Embedding of `SnapshotManager.restore`: parse the id with
`rsplit("_", 2)`, locate the snapshot directory, load its metadata and
dispatch on the recorded method; `criuOk` and `memOk` abstract the outcomes
of `_restore_criu` and `_restore_memory`; an unknown method fails. -/
def restoreOp (dirs : List GDir) (criuOk memOk : Bool) (sid : Str) : Bool :=
  match parseSnapshotId sid with
  | none => false
  | some (g, ts) =>
    match dirs.find? (fun d => d.game_id == g && d.dirname == ts) with
    | none => false
    | some d =>
      match loadMetadata d.metaFile with
      | none => false
      | some m =>
        if m.method == methodCriu then criuOk
        else if m.method == methodMemoryDump then memOk
        else false

/-- Embedding of `SnapshotManager.delete_snapshot`: parse the id; return
false when it is unparseable or the directory does not exist, else remove
the directory (`shutil.rmtree`) and return true. -/
def deleteSnapshot (dirs : List GDir) (sid : Str) : Bool × List GDir :=
  match parseSnapshotId sid with
  | none => (false, dirs)
  | some (g, ts) =>
    if dirs.any (fun d => d.game_id == g && d.dirname == ts) then
      (true, dirs.filter (fun d => !(d.game_id == g && d.dirname == ts)))
    else (false, dirs)

/-- Signals sent by `RestoreManager.restore_with_suspension` around the
inner restore call. -/
inductive REvent where
  | suspendEv
  | killEv
  | restoreEv
  | resumeEv
deriving DecidableEq

/-- Ordered signal trace of one `restore_with_suspension` call after the
snapshot lookup succeeded: optional stop signal, optional kill (privileged
path), the restore itself, optional continue signal. -/
def rwsTrace (suspendB killB resumeB : Bool) : List REvent :=
  (if suspendB then [REvent.suspendEv] else [])
    ++ (if killB then [REvent.killEv] else [])
    ++ [REvent.restoreEv]
    ++ (if resumeB then [REvent.resumeEv] else [])

/-- Embedding of `RestoreManager.restore_with_suspension`.  The lookup lists
snapshots under `snapshot_id.split("_")[0]` and searches for the record
with the requested id.  `alive` tells whether a pid names a live process
(stable during the call, except that the CRIU path kills the target, and a
stopped process still counts as alive); `restoreOk` abstracts the inner
`snapshot_manager.restore` call.  The `finally` block sends the continue
signal whenever a nonzero target pid exists, the method is not CRIU, and
the process is still running. -/
def restoreWithSuspension (dirs : List GDir) (sid : Str)
    (currentPid : Option Nat) (alive : Nat → Bool) (restoreOk : Bool) :
    Bool × List REvent :=
  match ((listSnapshots dirs (lookupKey sid)).find?
      (fun s => s.id == sid)) with
  | none => (false, [])
  | some snap =>
    let target : Nat :=
      match currentPid with
      | some p => if p = 0 then snap.pid else p
      | none => snap.pid
    let suspendHappens := target != 0 && alive target
    let isCriu := snap.method == methodCriu
    let killHappens := isCriu && target != 0
    let aliveAfter := alive target && !killHappens
    let resumeHappens := target != 0 && !isCriu && aliveAfter
    (restoreOk, rwsTrace suspendHappens killHappens resumeHappens)

/-- Example subject id containing an underscore, with one checkpoint. -/
def gameA : Str := "my_game".data

/-- Timestamp of the example checkpoint of `gameA`. -/
def tsA : Str := "20240101_120000".data

/-- Checkpoint id `create` would produce for `gameA` at `tsA`. -/
def sidA : Str := "my_game_20240101_120000".data

/-- Metadata of the example checkpoint of `gameA`. -/
def metaA : Meta :=
  { id := sidA, game_id := gameA, pid := 7, timestamp := tsA,
    method := methodMemoryDump, named := false }

/-- The example checkpoint directory `create` wrote for `gameA`. -/
def dirA : GDir :=
  { game_id := gameA, dirname := tsA, metaFile := MetaFile.valid metaA,
    size := 10 }

/-- Example subject id without underscores, used by the witnesses. -/
def gameB : Str := "game".data

/-- Timestamp of the example checkpoint of `gameB`. -/
def tsB : Str := "20240102_130000".data

/-- Checkpoint id of the example checkpoint of `gameB`. -/
def sidB : Str := "game_20240102_130000".data

/-- Metadata of the example checkpoint of `gameB`. -/
def metaB : Meta :=
  { id := sidB, game_id := gameB, pid := 7, timestamp := tsB,
    method := methodMemoryDump, named := false }

/-- The example checkpoint directory of `gameB`. -/
def dirB : GDir :=
  { game_id := gameB, dirname := tsB, metaFile := MetaFile.valid metaB,
    size := 10 }

/-- Listing record that `list_snapshots` produces for `dirB`. -/
def listedB : Listed :=
  { id := sidB, timestamp := tsB, pid := 7, method := methodMemoryDump,
    named := false, size := 10, gameDir := gameB, dirname := tsB }

theorem splitU_ne_nil (s : Str) : splitU s ≠ [] := by
  induction s with
  | nil => simp [splitU]
  | cons c rest ih =>
    simp only [splitU]
    split
    · simp
    · cases h : splitU rest with
      | nil => simp
      | cons x t => simp

theorem splitU_cons_sep (s : Str) : splitU ('_' :: s) = [] :: splitU s := by
  simp [splitU]

theorem splitU_cons_ne {c : Char} (hc : c ≠ '_') (s : Str) :
    splitU (c :: s) = (c :: (splitU s).headD []) :: (splitU s).tail := by
  simp only [splitU, if_neg hc]
  cases h : splitU s with
  | nil => exact absurd h (splitU_ne_nil s)
  | cons x t => simp

theorem splitU_append (xs ys : Str) :
    splitU (xs ++ '_' :: ys) = splitU xs ++ splitU ys := by
  induction xs with
  | nil => simp [splitU]
  | cons c rest ih =>
    by_cases hc : c = '_'
    · subst hc
      rw [List.cons_append, splitU_cons_sep, splitU_cons_sep, ih]
      rfl
    · rw [List.cons_append, splitU_cons_ne hc, splitU_cons_ne hc, ih]
      cases h : splitU rest with
      | nil => exact absurd h (splitU_ne_nil rest)
      | cons x t => simp

theorem splitU_of_not_mem {xs : Str} (h : '_' ∉ xs) : splitU xs = [xs] := by
  induction xs with
  | nil => rfl
  | cons c rest ih =>
    have hc : c ≠ '_' := fun hc => h (hc ▸ List.mem_cons_self c rest)
    have hr : '_' ∉ rest := fun hr => h (List.mem_cons_of_mem c hr)
    rw [splitU_cons_ne hc, ih hr]
    rfl

theorem joinU_splitU (s : Str) : joinU (splitU s) = s := by
  induction s with
  | nil => rfl
  | cons c rest ih =>
    by_cases hc : c = '_'
    · subst hc
      rw [splitU_cons_sep]
      cases h : splitU rest with
      | nil => exact absurd h (splitU_ne_nil rest)
      | cons x t =>
        rw [h] at ih
        simp only [joinU, List.nil_append]
        rw [ih]
    · rw [splitU_cons_ne hc]
      cases h : splitU rest with
      | nil => exact absurd h (splitU_ne_nil rest)
      | cons x t =>
        rw [h] at ih
        cases t with
        | nil => simp only [List.headD_cons, List.tail_cons, joinU] at ih ⊢; rw [ih]
        | cons y t2 =>
          simp only [List.headD_cons, List.tail_cons, joinU] at ih ⊢
          rw [List.cons_append, ih]

theorem length_splitU (s : Str) : (splitU s).length = s.count '_' + 1 := by
  induction s with
  | nil => simp [splitU]
  | cons c rest ih =>
    by_cases hc : c = '_'
    · subst hc
      rw [splitU_cons_sep]
      simp only [List.length_cons, ih, List.count_cons]
      simp
    · rw [splitU_cons_ne hc]
      cases h : splitU rest with
      | nil => exact absurd h (splitU_ne_nil rest)
      | cons x t =>
        rw [h] at ih
        simp only [List.length_cons, List.tail_cons] at ih ⊢
        rw [List.count_cons]
        simp only [beq_iff_eq]
        rw [if_neg hc]
        omega

theorem rsplit2_of_le {s : Str} (h : (splitU s).length ≤ 3) :
    rsplit2 s = splitU s := by
  simp only [rsplit2]
  rw [if_pos h]

theorem rsplit2_mkId (g d h : Str) (hd : '_' ∉ d) (hh : '_' ∉ h) :
    rsplit2 (g ++ '_' :: (d ++ '_' :: h)) = [g, d, h] := by
  have hsplit : splitU (g ++ '_' :: (d ++ '_' :: h)) = splitU g ++ [d, h] := by
    rw [splitU_append, splitU_append, splitU_of_not_mem hd, splitU_of_not_mem hh]
    rfl
  have hjoin : joinU (splitU g) = g := joinU_splitU g
  cases hg : splitU g with
  | nil => exact absurd hg (splitU_ne_nil g)
  | cons a t =>
    rw [hg] at hsplit hjoin
    cases t with
    | nil =>
      have hga : a = g := by simpa [joinU] using hjoin
      rw [rsplit2]
      simp only [hsplit]
      rw [if_pos (by simp)]
      rw [hga]
      rfl
    | cons b t2 =>
      rw [rsplit2]
      simp only [hsplit]
      have hlen : ((a :: b :: t2) ++ [d, h]).length = t2.length + 4 := by
        simp
      rw [hlen]
      rw [if_neg (by omega)]
      have hlq : t2.length + 4 - 2 = (a :: b :: t2).length := by simp
      rw [hlq, List.take_left, List.drop_left, hjoin]

theorem parseSnapshotId_mkId (g d h : Str) (hd : '_' ∉ d) (hh : '_' ∉ h) :
    parseSnapshotId (g ++ '_' :: (d ++ '_' :: h)) = some (g, d ++ '_' :: h) := by
  simp only [parseSnapshotId]
  rw [rsplit2_mkId g d h hd hh]
  simp [joinU]

theorem parseSnapshotId_eq_none_of_count_lt {s : Str} (h : s.count '_' < 2) :
    parseSnapshotId s = none := by
  have hlen : (splitU s).length < 3 := by
    rw [length_splitU]; omega
  simp only [parseSnapshotId]
  rw [rsplit2_of_le (Nat.le_of_lt hlen)]
  rw [if_pos hlen]

theorem lexLe_refl (s : Str) : lexLe s s = true := by
  induction s with
  | nil => rfl
  | cons a as ih => simp [lexLe, ih]

theorem lexLe_total (a b : Str) : lexLe a b || lexLe b a := by
  induction a generalizing b with
  | nil => simp [lexLe]
  | cons x as ih =>
    cases b with
    | nil => simp [lexLe]
    | cons y bs =>
      by_cases hxy : x < y
      · simp [lexLe, hxy]
      · by_cases hyx : y < x
        · simp [lexLe, hxy, hyx]
        · simp only [lexLe, if_neg hxy, if_neg hyx]
          exact ih bs

theorem lexLe_trans (a b c : Str) (hab : lexLe a b) (hbc : lexLe b c) :
    lexLe a c := by
  induction a generalizing b c with
  | nil => simp [lexLe]
  | cons x as ih =>
    cases b with
    | nil => simp [lexLe] at hab
    | cons y bs =>
      cases c with
      | nil => simp [lexLe] at hbc
      | cons z cs =>
        simp only [lexLe] at hab hbc ⊢
        rcases lt_trichotomy x y with hxy | hxy | hxy
        · rcases lt_trichotomy y z with hyz | hyz | hyz
          · rw [if_pos (lt_trans hxy hyz)]
          · subst hyz; rw [if_pos hxy]
          · rw [if_neg (lt_asymm hyz), if_pos hyz] at hbc
            simp at hbc
        · subst hxy
          rcases lt_trichotomy x z with hxz | hxz | hxz
          · rw [if_pos hxz]
          · subst hxz
            rw [if_neg (lt_irrefl x), if_neg (lt_irrefl x)] at hab hbc ⊢
            exact ih bs cs hab hbc
          · rw [if_neg (lt_asymm hxz), if_pos hxz] at hbc
            simp at hbc
        · rw [if_neg (lt_asymm hxy), if_pos hxy] at hab
          simp at hab

theorem listedLe_trans (a b c : Listed) (h1 : listedLe a b) (h2 : listedLe b c) :
    listedLe a c := lexLe_trans _ _ _ h2 h1

theorem listedLe_total (a b : Listed) : listedLe a b || listedLe b a := by
  simpa [listedLe] using lexLe_total b.timestamp a.timestamp

theorem ascLe_trans (a b c : Listed) (h1 : ascLe a b) (h2 : ascLe b c) :
    ascLe a c := lexLe_trans _ _ _ h1 h2

theorem ascLe_total (a b : Listed) : ascLe a b || ascLe b a :=
  lexLe_total a.timestamp b.timestamp

theorem toListedG_path {d : GDir} {e : Listed} (h : toListedG d = some e) :
    e.gameDir = d.game_id ∧ e.dirname = d.dirname ∧ e.size = d.size := by
  cases hm : loadMetadata d.metaFile with
  | none => rw [toListedG, hm] at h; simp at h
  | some m =>
    rw [toListedG, hm] at h
    simp only [Option.map_some', Option.some.injEq] at h
    subst h
    exact ⟨rfl, rfl, rfl⟩

theorem toListedG_meta {d : GDir} {e : Listed} (h : toListedG d = some e) :
    ∃ m, loadMetadata d.metaFile = some m ∧ m.named = e.named ∧
      m.timestamp = e.timestamp ∧ m.id = e.id ∧ m.method = e.method ∧
      m.pid = e.pid := by
  cases hm : loadMetadata d.metaFile with
  | none => rw [toListedG, hm] at h; simp at h
  | some m =>
    rw [toListedG, hm] at h
    simp only [Option.map_some', Option.some.injEq] at h
    subst h
    exact ⟨m, rfl, rfl, rfl, rfl, rfl, rfl⟩

theorem toListed_eq_some {g : Str} {d : GDir} {e : Listed}
    (h : toListed g d = some e) : d.game_id = g ∧ toListedG d = some e := by
  by_cases hg : d.game_id = g
  · rw [toListed, if_pos hg] at h
    exact ⟨hg, h⟩
  · rw [toListed, if_neg hg] at h
    simp at h

theorem filterMap_filter_comm {α β : Type} (f : α → Option β) (p : α → Bool)
    (q : β → Bool) (hpq : ∀ a b, f a = some b → p a = q b) :
    ∀ l : List α, (l.filter p).filterMap f = (l.filterMap f).filter q
  | [] => rfl
  | a :: t => by
    have ih := filterMap_filter_comm f p q hpq t
    cases hfa : f a with
    | none =>
      by_cases hp : p a
      · rw [List.filter_cons_of_pos hp, List.filterMap_cons, hfa,
            List.filterMap_cons, hfa]
        exact ih
      · rw [List.filter_cons_of_neg (by simpa using hp), List.filterMap_cons,
            hfa]
        exact ih
    | some b =>
      have hq : p a = q b := hpq a b hfa
      by_cases hp : p a
      · rw [List.filter_cons_of_pos hp, List.filterMap_cons, hfa,
            List.filterMap_cons, hfa,
            List.filter_cons_of_pos (by rw [← hq]; exact hp)]
        rw [ih]
      · rw [List.filter_cons_of_neg (by simpa using hp), List.filterMap_cons,
            hfa, List.filter_cons_of_neg (by rw [← hq]; simpa using hp)]
        exact ih

theorem filterMap_map_sublist {α β γ : Type} (f : α → Option β) (g1 : α → γ)
    (g2 : β → γ) (h : ∀ a b, f a = some b → g2 b = g1 a) :
    ∀ l : List α, ((l.filterMap f).map g2).Sublist (l.map g1)
  | [] => List.Sublist.refl []
  | a :: t => by
    have ih := filterMap_map_sublist f g1 g2 h t
    cases hfa : f a with
    | none =>
      rw [List.filterMap_cons, hfa, List.map_cons]
      exact List.Sublist.cons (g1 a) ih
    | some b =>
      rw [List.filterMap_cons, hfa, List.map_cons, List.map_cons, h a b hfa]
      exact List.Sublist.cons₂ (g1 a) ih

theorem filter_no_match {Y X : List Listed}
    (hd : ∀ e ∈ Y, ∀ s ∈ X, pathL s ≠ pathL e) :
    Y.filter (fun e => !(X.any (fun s => samePathB s e))) = Y := by
  apply List.filter_eq_self.mpr
  intro e he
  rw [Bool.not_eq_true', List.any_eq_false]
  intro s hs
  simp only [samePathB, Bool.and_eq_true, beq_iff_eq, not_and]
  intro h1 h2
  exact hd e he s hs (by rw [pathL, pathL, h1, h2])

theorem filter_self_match (X : List Listed) :
    X.filter (fun e => !(X.any (fun s => samePathB s e))) = [] := by
  rw [List.filter_eq_nil_iff]
  intro e he
  simp only [Bool.not_eq_true', Bool.not_eq_false, List.any_eq_true]
  exact ⟨e, he, by simp [samePathB]⟩

/-- C5: `list_snapshots(game_id)` returns the checkpoint metadata records
sorted newest first, i.e. pairwise non-increasing in the lexicographic
timestamp key, the result is exactly (a permutation of) the records of the
directories whose metadata loads, and directories whose metadata is missing
or unreadable contribute nothing to the result instead of failing the
listing. -/
theorem C5_list_snapshots_sorted_and_tolerant :
    ∀ (dirs : List GDir) (g : Str),
      (listSnapshots dirs g).Pairwise (fun a b => listedLe a b = true)
      ∧ (listSnapshots dirs g).Perm (dirs.filterMap (toListed g))
      ∧ dirs.filterMap (toListed g)
          = (dirs.filter
              (fun d => (loadMetadata d.metaFile).isSome)).filterMap
              (toListed g) := by
  intro dirs g
  refine ⟨?_, ?_, ?_⟩
  · exact List.sorted_mergeSort listedLe_trans listedLe_total _
  · exact List.mergeSort_perm _ _
  · rw [filterMap_filter_comm (toListed g)
      (fun d => (loadMetadata d.metaFile).isSome) (fun _ => true)]
    · rw [List.filter_true]
    · intro d e h
      obtain ⟨-, hG⟩ := toListed_eq_some h
      obtain ⟨m, hm, -⟩ := toListedG_meta hG
      simp [hm]

/-- C9 counterexample: `_load_metadata` does not distinguish a missing
metadata file from a corrupt one — both return `None`, so the claimed
distinct "not found" versus "corrupt" results are in fact the same value. -/
theorem C9_counterexample_no_distinction :
    loadMetadata MetaFile.missing = loadMetadata MetaFile.corrupt
    ∧ loadMetadata MetaFile.missing = none := ⟨rfl, rfl⟩

/-- C9 amended: `_load_metadata` returns `None` both when the metadata file
is missing and when it is present but unparseable, and the parsed document
when it is valid; callers (here the listing record builder) treat the two
`None` outcomes identically as absence of the checkpoint. -/
theorem C9_load_metadata_amended :
    loadMetadata MetaFile.missing = none
    ∧ loadMetadata MetaFile.corrupt = none
    ∧ (∀ m, loadMetadata (MetaFile.valid m) = some m)
    ∧ (∀ gid dn sz, toListedG ⟨gid, dn, MetaFile.missing, sz⟩ = none
        ∧ toListedG ⟨gid, dn, MetaFile.corrupt, sz⟩ = none) :=
  ⟨rfl, rfl, fun _ => rfl, fun _ _ _ => ⟨rfl, rfl⟩⟩

theorem toListed_pathL {g : Str} {d : GDir} {e : Listed}
    (h : toListed g d = some e) : pathL e = pathD d := by
  obtain ⟨-, hG⟩ := toListed_eq_some h
  obtain ⟨h1, h2, -⟩ := toListedG_path hG
  rw [pathL, pathD, h1, h2]

theorem matchDirB_eq_samePathB {g : Str} {d : GDir} {e : Listed}
    (h : toListed g d = some e) (s : Listed) :
    matchDirB s d = samePathB s e := by
  obtain ⟨-, hG⟩ := toListed_eq_some h
  obtain ⟨h1, h2, -⟩ := toListedG_path hG
  rw [matchDirB, samePathB, h1, h2]

theorem nodupPathL_listing (dirs : List GDir) (g : Str)
    (hnd : (dirs.map pathD).Nodup) :
    ((dirs.filterMap (toListed g)).map pathL).Nodup :=
  List.Nodup.sublist
    (filterMap_map_sublist (toListed g) pathD pathL
      (fun _ _ h => toListed_pathL h) dirs) hnd

theorem listing_after_delete (dirs : List GDir) (g : Str) (X : List Listed) :
    (dirs.filter
        (fun d => !(X.any (fun s => matchDirB s d)))).filterMap (toListed g)
      = (dirs.filterMap (toListed g)).filter
          (fun e => !(X.any (fun s => samePathB s e))) := by
  apply filterMap_filter_comm
  intro d e h
  have hfun : (fun s => matchDirB s d) = fun s => samePathB s e :=
    funext fun s => matchDirB_eq_samePathB h s
  simp only [hfun]

theorem deleted_dir_source {dirs : List GDir} {g : Str} {X : List Listed}
    (hnd : (dirs.map pathD).Nodup)
    (hX : ∀ s ∈ X, ∃ d ∈ dirs, toListed g d = some s)
    {d : GDir} (hd : d ∈ dirs)
    (hdel : d ∉ dirs.filter (fun d => !(X.any (fun s => matchDirB s d)))) :
    ∃ s ∈ X, toListed g d = some s := by
  have hany : X.any (fun s => matchDirB s d) = true := by
    rcases Bool.eq_false_or_eq_true (X.any (fun s => matchDirB s d)) with h | h
    · exact h
    · exact absurd (List.mem_filter.mpr ⟨hd, by rw [h]; rfl⟩) hdel
  obtain ⟨s, hs, hmatch⟩ := List.any_eq_true.mp hany
  obtain ⟨d2, hd2, hsome⟩ := hX s hs
  have hsd : s.gameDir = d.game_id ∧ s.dirname = d.dirname := by
    simpa [matchDirB] using hmatch
  have hpaths : pathD d2 = pathD d := by
    have h1 := toListed_pathL hsome
    rw [← h1, pathL, pathD, hsd.1, hsd.2]
  have hdd : d2 = d := List.inj_on_of_nodup_map hnd hd2 hd hpaths
  exact ⟨s, hs, hdd ▸ hsome⟩

theorem kept_listed_not_deleted {dirs : List GDir} {g : Str} {X : List Listed}
    {k : GDir}
    (hk : k ∈ dirs.filter (fun d => !(X.any (fun s => matchDirB s d))))
    {e : Listed} (he : toListed g k = some e) : e ∉ X := by
  intro heX
  have h2 := (List.mem_filter.mp hk).2
  have hmatch : matchDirB e k = true := by
    obtain ⟨-, hG⟩ := toListed_eq_some he
    obtain ⟨h1, h2g, -⟩ := toListedG_path hG
    simp [matchDirB, h1, h2g]
  have hany : X.any (fun s => matchDirB s k) = true :=
    List.any_eq_true.mpr ⟨e, heX, hmatch⟩
  rw [hany] at h2
  simp at h2

theorem toListed_of_meta {g : Str} {k : GDir} {mk : Meta}
    (hg : k.game_id = g) (hm : loadMetadata k.metaFile = some mk) :
    toListed g k = some
      { id := mk.id, timestamp := mk.timestamp, pid := mk.pid,
        method := mk.method, named := mk.named, size := k.size,
        gameDir := k.game_id, dirname := k.dirname } := by
  rw [toListed, if_pos hg, toListedG, hm]
  rfl

theorem cleanupOld_of_le {dirs : List GDir} {g : Str} {N : Nat}
    (h : ((listSnapshots dirs g).filter (fun s => !s.named)).length ≤ N) :
    cleanupOldSnapshots dirs g N = dirs := by
  simp only [cleanupOldSnapshots]
  rw [if_pos h]

theorem cleanupOld_of_gt {dirs : List GDir} {g : Str} {N : Nat}
    (h : ¬ ((listSnapshots dirs g).filter (fun s => !s.named)).length ≤ N) :
    cleanupOldSnapshots dirs g N
      = dirs.filter (fun d =>
          !((((listSnapshots dirs g).filter (fun s => !s.named)).drop N).any
            (fun s => matchDirB s d))) := by
  simp only [cleanupOldSnapshots]
  rw [if_neg h]

/-- C3: after `cleanup_old_snapshots(game_id, N)` the number of unnamed
checkpoints listed for the game equals the minimum of `N` and the previous
count (hence is at most `N`); every deleted directory belonged to that game
and was an unnamed checkpoint with loadable metadata, so named checkpoints
are never deleted by this rule; and every deleted checkpoint is
chronologically no newer than any kept unnamed checkpoint of the game —
only the oldest beyond the `N` most recent are removed. -/
theorem C3_rolling_window_retention (dirs : List GDir) (g : Str) (N : Nat)
    (hnd : (dirs.map pathD).Nodup) :
    ((listSnapshots (cleanupOldSnapshots dirs g N) g).filter
        (fun s => !s.named)).length
      = min N ((listSnapshots dirs g).filter (fun s => !s.named)).length
    ∧ (∀ d ∈ dirs, d ∉ cleanupOldSnapshots dirs g N →
        d.game_id = g ∧ ∃ m, loadMetadata d.metaFile = some m ∧
          m.named = false)
    ∧ (∀ d ∈ dirs, d ∉ cleanupOldSnapshots dirs g N →
        ∀ md, loadMetadata d.metaFile = some md →
        ∀ k, k ∈ cleanupOldSnapshots dirs g N → k.game_id = g →
        ∀ mk, loadMetadata k.metaFile = some mk → mk.named = false →
        lexLe md.timestamp mk.timestamp = true) := by
  by_cases hle : ((listSnapshots dirs g).filter (fun s => !s.named)).length ≤ N
  · rw [cleanupOld_of_le hle]
    refine ⟨(Nat.min_eq_right hle).symm, ?_, ?_⟩
    · intro d hd hdel
      exact absurd hd hdel
    · intro d hd hdel
      exact absurd hd hdel
  · rw [cleanupOld_of_gt hle]
    set snaps := listSnapshots dirs g with hsnaps
    set rolling := snaps.filter (fun s => !s.named) with hrol
    set X := rolling.drop N with hX0
    set p := fun d => !(X.any (fun s => matchDirB s d)) with hp
    set q := fun e => !(X.any (fun s => samePathB s e)) with hq
    have hpermS : snaps.Perm (dirs.filterMap (toListed g)) :=
      List.mergeSort_perm _ _
    have hsorted : snaps.Pairwise (fun a b => listedLe a b = true) :=
      List.sorted_mergeSort listedLe_trans listedLe_total _
    have hnodL := nodupPathL_listing dirs g hnd
    have hnodS : (snaps.map pathL).Nodup :=
      (List.Perm.nodup_iff (hpermS.map pathL)).mpr hnodL
    have hrollsub : rolling.Sublist snaps := List.filter_sublist _
    have hnodR : (rolling.map pathL).Nodup :=
      List.Nodup.sublist (hrollsub.map pathL) hnodS
    have hsplit : rolling.take N ++ rolling.drop N = rolling :=
      List.take_append_drop N rolling
    have hroll_pair : rolling.Pairwise (fun a b => listedLe a b = true) :=
      hsorted.filter _
    have hpair_split : ∀ x ∈ rolling.take N, ∀ y ∈ rolling.drop N,
        listedLe x y = true := by
      have h := hroll_pair
      rw [← hsplit] at h
      exact (List.pairwise_append.mp h).2.2
    have hdisj : ∀ e ∈ rolling.take N, ∀ s ∈ rolling.drop N,
        pathL s ≠ pathL e := by
      have hnd2 : ((rolling.take N ++ rolling.drop N).map pathL).Nodup := by
        rw [hsplit]; exact hnodR
      rw [List.map_append] at hnd2
      have hdis := List.disjoint_of_nodup_append hnd2
      intro e he s hs heq
      exact hdis (List.mem_map_of_mem pathL he)
        (heq ▸ List.mem_map_of_mem pathL hs)
    have hXsrc : ∀ s ∈ X, ∃ d ∈ dirs, toListed g d = some s := by
      intro s hs
      rw [hX0] at hs
      have h1 : s ∈ rolling := (List.drop_sublist _ _).subset hs
      rw [hrol] at h1
      have h2 : s ∈ snaps := List.mem_of_mem_filter h1
      exact List.mem_filterMap.mp (hpermS.subset h2)
    refine ⟨?_, ?_, ?_⟩
    · have s1 : ((listSnapshots (dirs.filter p) g).filter
          (fun s => !s.named)).Perm
          (((dirs.filter p).filterMap (toListed g)).filter
            (fun s => !s.named)) :=
        (List.mergeSort_perm _ _).filter _
      have s2 : ((dirs.filter p).filterMap (toListed g)).filter
            (fun s => !s.named)
          = ((dirs.filterMap (toListed g)).filter q).filter
            (fun s => !s.named) := by
        rw [hp, hq, listing_after_delete dirs g X]
      have s3 : (((dirs.filterMap (toListed g)).filter q).filter
            (fun s => !s.named)).Perm
          ((snaps.filter q).filter (fun s => !s.named)) :=
        ((hpermS.symm).filter q).filter _
      have s4 : (snaps.filter q).filter (fun s => !s.named)
          = rolling.filter q := by
        rw [List.filter_filter, hrol, List.filter_filter]
        exact List.filter_congr (fun a _ => Bool.and_comm _ _)
      have s5 : rolling.filter q = rolling.take N := by
        have hstep : rolling.filter q
            = (rolling.take N).filter q ++ (rolling.drop N).filter q := by
          conv_lhs => rw [← hsplit]
          rw [List.filter_append]
        rw [hstep, hq]
        rw [filter_no_match (fun e he s hs => hdisj e he s (hX0 ▸ hs))]
        rw [← hX0, filter_self_match, List.append_nil]
      have hchain : ((listSnapshots (dirs.filter p) g).filter
          (fun s => !s.named)).Perm (rolling.take N) := by
        have t1 := s1
        rw [s2] at t1
        have t2 := t1.trans s3
        rw [s4, s5] at t2
        exact t2
      rw [hchain.length_eq, List.length_take]
    · intro d hd hdel
      rw [hp] at hdel
      obtain ⟨s, hsX, hsome⟩ := deleted_dir_source hnd hXsrc hd hdel
      obtain ⟨hg, hG⟩ := toListed_eq_some hsome
      obtain ⟨m, hm, hnamed, -⟩ := toListedG_meta hG
      refine ⟨hg, m, hm, ?_⟩
      have hsroll : s ∈ rolling := by
        rw [hX0] at hsX
        exact (List.drop_sublist _ _).subset hsX
      rw [hrol] at hsroll
      have hns := (List.mem_filter.mp hsroll).2
      rw [hnamed]
      simpa using hns
    · intro d hd hdel md hmd k hk hkg mk hmk hmknamed
      rw [hp] at hdel hk
      obtain ⟨s, hsX, hsome⟩ := deleted_dir_source hnd hXsrc hd hdel
      obtain ⟨-, hG⟩ := toListed_eq_some hsome
      obtain ⟨m, hm, -, hmts, -⟩ := toListedG_meta hG
      rw [hmd] at hm
      have hmdm : md = m := Option.some.inj hm
      have hke := toListed_of_meta hkg hmk
      obtain ⟨ek, hkeq⟩ : ∃ ek, toListed g k = some ek := ⟨_, hke⟩
      obtain ⟨mk2, hmk2, hek_named, hek_ts, -⟩ :=
        toListedG_meta (toListed_eq_some hkeq).2
      rw [hmk] at hmk2
      have hmkeq : mk = mk2 := Option.some.inj hmk2
      have hkdirs : k ∈ dirs := (List.mem_filter.mp hk).1
      have hekL : ek ∈ dirs.filterMap (toListed g) :=
        List.mem_filterMap.mpr ⟨k, hkdirs, hkeq⟩
      have hekS : ek ∈ snaps := hpermS.symm.subset hekL
      have hekn : ek.named = false := by
        rw [← hek_named, ← hmkeq]
        exact hmknamed
      have hekR : ek ∈ rolling := by
        rw [hrol]
        exact List.mem_filter.mpr ⟨hekS, by simp [hekn]⟩
      have heknotX : ek ∉ X := kept_listed_not_deleted hk hkeq
      have hektake : ek ∈ rolling.take N := by
        have h := hekR
        rw [← hsplit] at h
        rcases List.mem_append.mp h with h2 | h2
        · exact h2
        · exact absurd (by rw [hX0]; exact h2) heknotX
      have hrel : listedLe ek s = true :=
        hpair_split ek hektake s (hX0 ▸ hsX)
      rw [hmdm, hmts, hmkeq, hek_ts]
      exact hrel

theorem sumSizes_cons (s : Listed) (l : List Listed) :
    sumSizes (s :: l) = s.size + sumSizes l := by
  simp [sumSizes]

theorem sumSizes_append (a b : List Listed) :
    sumSizes (a ++ b) = sumSizes a + sumSizes b := by
  simp [sumSizes]

theorem sumSizes_perm {l1 l2 : List Listed} (h : l1.Perm l2) :
    sumSizes l1 = sumSizes l2 :=
  (h.map _).sum_eq

theorem evict_split (maxB : Nat) : ∀ (l : List Listed) (t : Nat),
    evictDeleted maxB l t ++ evictKept maxB l t = l
  | [], _ => rfl
  | s :: rest, t => by
    by_cases h : t ≤ maxB
    · simp [evictDeleted, evictKept, h]
    · simp only [evictDeleted, evictKept, if_neg h, List.cons_append]
      rw [evict_split maxB rest (t - s.size)]

theorem evict_bound (maxB : Nat) : ∀ (l : List Listed) (base : Nat),
    evictKept maxB l (base + sumSizes l) = []
    ∨ base + sumSizes (evictKept maxB l (base + sumSizes l)) ≤ maxB
  | [], _ => Or.inl rfl
  | s :: rest, base => by
    by_cases h : base + sumSizes (s :: rest) ≤ maxB
    · right
      rw [evictKept, if_pos h]
      exact h
    · have harith : base + sumSizes (s :: rest) - s.size
          = base + sumSizes rest := by
        rw [sumSizes_cons]; omega
      rw [evictKept, if_neg h, harith]
      exact evict_bound maxB rest base

theorem toListedG_pathL {d : GDir} {e : Listed} (h : toListedG d = some e) :
    pathL e = pathD d := by
  obtain ⟨h1, h2, -⟩ := toListedG_path h
  rw [pathL, pathD, h1, h2]

theorem matchDirB_eq_samePathB_G {d : GDir} {e : Listed}
    (h : toListedG d = some e) (s : Listed) :
    matchDirB s d = samePathB s e := by
  obtain ⟨h1, h2, -⟩ := toListedG_path h
  rw [matchDirB, samePathB, h1, h2]

theorem nodupPathL_listingG (dirs : List GDir)
    (hnd : (dirs.map pathD).Nodup) :
    ((dirs.filterMap toListedG).map pathL).Nodup :=
  List.Nodup.sublist
    (filterMap_map_sublist toListedG pathD pathL
      (fun _ _ h => toListedG_pathL h) dirs) hnd

theorem listing_after_deleteG (dirs : List GDir) (X : List Listed) :
    (dirs.filter
        (fun d => !(X.any (fun s => matchDirB s d)))).filterMap toListedG
      = (dirs.filterMap toListedG).filter
          (fun e => !(X.any (fun s => samePathB s e))) := by
  apply filterMap_filter_comm
  intro d e h
  have hfun : (fun s => matchDirB s d) = fun s => samePathB s e :=
    funext fun s => matchDirB_eq_samePathB_G h s
  simp only [hfun]

theorem deleted_dir_sourceG {dirs : List GDir} {X : List Listed}
    (hnd : (dirs.map pathD).Nodup)
    (hX : ∀ s ∈ X, ∃ d ∈ dirs, toListedG d = some s)
    {d : GDir} (hd : d ∈ dirs)
    (hdel : d ∉ dirs.filter (fun d => !(X.any (fun s => matchDirB s d)))) :
    ∃ s ∈ X, toListedG d = some s := by
  have hany : X.any (fun s => matchDirB s d) = true := by
    rcases Bool.eq_false_or_eq_true (X.any (fun s => matchDirB s d)) with h | h
    · exact h
    · exact absurd (List.mem_filter.mpr ⟨hd, by rw [h]; rfl⟩) hdel
  obtain ⟨s, hs, hmatch⟩ := List.any_eq_true.mp hany
  obtain ⟨d2, hd2, hsome⟩ := hX s hs
  have hsd : s.gameDir = d.game_id ∧ s.dirname = d.dirname := by
    simpa [matchDirB] using hmatch
  have hpaths : pathD d2 = pathD d := by
    have h1 := toListedG_pathL hsome
    rw [← h1, pathL, pathD, hsd.1, hsd.2]
  have hdd : d2 = d := List.inj_on_of_nodup_map hnd hd2 hd hpaths
  exact ⟨s, hs, hdd ▸ hsome⟩

theorem kept_listed_not_deletedG {dirs : List GDir} {X : List Listed}
    {k : GDir}
    (hk : k ∈ dirs.filter (fun d => !(X.any (fun s => matchDirB s d))))
    {e : Listed} (he : toListedG k = some e) : e ∉ X := by
  intro heX
  have h2 := (List.mem_filter.mp hk).2
  have hmatch : matchDirB e k = true := by
    obtain ⟨h1, h2g, -⟩ := toListedG_path he
    simp [matchDirB, h1, h2g]
  have hany : X.any (fun s => matchDirB s k) = true :=
    List.any_eq_true.mpr ⟨e, heX, hmatch⟩
  rw [hany] at h2
  simp at h2

theorem toListedG_of_meta {k : GDir} {mk : Meta}
    (hm : loadMetadata k.metaFile = some mk) :
    toListedG k = some
      { id := mk.id, timestamp := mk.timestamp, pid := mk.pid,
        method := mk.method, named := mk.named, size := k.size,
        gameDir := k.game_id, dirname := k.dirname } := by
  rw [toListedG, hm]
  rfl

theorem cleanupBySize_of_le {dirs : List GDir} {maxB : Nat}
    (h : sumSizes (dirs.filterMap toListedG) ≤ maxB) :
    cleanupBySize dirs maxB = dirs := by
  simp only [cleanupBySize]
  rw [if_pos h]

theorem cleanupBySize_of_gt {dirs : List GDir} {maxB : Nat}
    (h : ¬ sumSizes (dirs.filterMap toListedG) ≤ maxB) :
    cleanupBySize dirs maxB
      = dirs.filter (fun d =>
          !((evictDeleted maxB
              (((dirs.filterMap toListedG).filter
                (fun s => !s.named)).mergeSort ascLe)
              (sumSizes (dirs.filterMap toListedG))).any
            (fun s => matchDirB s d))) := by
  simp only [cleanupBySize]
  rw [if_neg h]

/-- C4: after a `cleanup_by_size` sweep either the total payload size of the
remaining unnamed checkpoints is at or under the ceiling or no unnamed
checkpoint remains; only unnamed checkpoints with loadable metadata are
ever deleted by the sweep (named ones never are); and deletion is
oldest-timestamp-first: every deleted checkpoint is chronologically no
newer than any remaining unnamed checkpoint. -/
theorem C4_storage_ceiling (dirs : List GDir) (maxB : Nat)
    (hnd : (dirs.map pathD).Nodup) :
    (sumSizes (((cleanupBySize dirs maxB).filterMap toListedG).filter
        (fun s => !s.named)) ≤ maxB
      ∨ ((cleanupBySize dirs maxB).filterMap toListedG).filter
          (fun s => !s.named) = [])
    ∧ (∀ d ∈ dirs, d ∉ cleanupBySize dirs maxB →
        ∃ m, loadMetadata d.metaFile = some m ∧ m.named = false)
    ∧ (∀ d ∈ dirs, d ∉ cleanupBySize dirs maxB →
        ∀ md, loadMetadata d.metaFile = some md →
        ∀ k, k ∈ cleanupBySize dirs maxB →
        ∀ mk, loadMetadata k.metaFile = some mk → mk.named = false →
        lexLe md.timestamp mk.timestamp = true) := by
  by_cases hle : sumSizes (dirs.filterMap toListedG) ≤ maxB
  · rw [cleanupBySize_of_le hle]
    refine ⟨Or.inl ?_, ?_, ?_⟩
    · have hperm2 :=
        List.filter_append_perm (fun s => !s.named) (dirs.filterMap toListedG)
      have hsum := sumSizes_perm hperm2
      rw [sumSizes_append] at hsum
      omega
    · intro d hd hdel
      exact absurd hd hdel
    · intro d hd hdel
      exact absurd hd hdel
  · rw [cleanupBySize_of_gt hle]
    set allSnaps := dirs.filterMap toListedG with hall
    set total := sumSizes allSnaps with htotal
    set unnamed := allSnaps.filter (fun s => !s.named) with hunnamed
    set sorted := unnamed.mergeSort ascLe with hsorted0
    set X := evictDeleted maxB sorted total with hX0
    set K := evictKept maxB sorted total with hK0
    set p := fun d => !(X.any (fun s => matchDirB s d)) with hp
    set q := fun e => !(X.any (fun s => samePathB s e)) with hq
    have hpermS : sorted.Perm unnamed := List.mergeSort_perm _ _
    have hsort_pair : sorted.Pairwise (fun a b => ascLe a b = true) :=
      List.sorted_mergeSort ascLe_trans ascLe_total _
    have hnodAll : (allSnaps.map pathL).Nodup := nodupPathL_listingG dirs hnd
    have hnodUn : (unnamed.map pathL).Nodup :=
      List.Nodup.sublist ((List.filter_sublist _).map pathL) hnodAll
    have hnodSorted : (sorted.map pathL).Nodup :=
      (List.Perm.nodup_iff (hpermS.map pathL)).mpr hnodUn
    have hsplit : X ++ K = sorted := by
      rw [hX0, hK0]
      exact evict_split maxB sorted total
    have hpair_split : ∀ x ∈ X, ∀ y ∈ K, ascLe x y = true := by
      have h := hsort_pair
      rw [← hsplit] at h
      exact (List.pairwise_append.mp h).2.2
    have hdisj : ∀ e ∈ K, ∀ s ∈ X, pathL s ≠ pathL e := by
      have hnd2 : ((X ++ K).map pathL).Nodup := by
        rw [hsplit]
        exact hnodSorted
      rw [List.map_append] at hnd2
      have hdis := List.disjoint_of_nodup_append hnd2
      intro e he s hs heq
      exact hdis (List.mem_map_of_mem pathL hs)
        (heq.symm ▸ List.mem_map_of_mem pathL he)
    have hXsrc : ∀ s ∈ X, ∃ d ∈ dirs, toListedG d = some s := by
      intro s hs
      have h1 : s ∈ sorted := by
        rw [← hsplit]
        exact List.mem_append.mpr (Or.inl hs)
      have h2 : s ∈ unnamed := hpermS.subset h1
      rw [hunnamed] at h2
      have h3 : s ∈ allSnaps := List.mem_of_mem_filter h2
      rw [hall] at h3
      exact List.mem_filterMap.mp h3
    have hXunnamed : ∀ s ∈ X, s.named = false := by
      intro s hs
      have h1 : s ∈ sorted := by
        rw [← hsplit]
        exact List.mem_append.mpr (Or.inl hs)
      have h2 : s ∈ unnamed := hpermS.subset h1
      rw [hunnamed] at h2
      have h3 := (List.mem_filter.mp h2).2
      simpa using h3
    refine ⟨?_, ?_, ?_⟩
    · have hcomm : (dirs.filter p).filterMap toListedG
          = allSnaps.filter q := by
        rw [hp, hq]
        exact listing_after_deleteG dirs X
      have hrem : ((dirs.filter p).filterMap toListedG).filter
            (fun s => !s.named)
          = unnamed.filter q := by
        rw [hcomm, List.filter_filter, hunnamed, List.filter_filter]
        exact List.filter_congr (fun a _ => Bool.and_comm _ _)
      have h2 : sorted.filter q = K := by
        conv_lhs => rw [← hsplit]
        rw [List.filter_append, hq, filter_self_match, filter_no_match hdisj,
          List.nil_append]
      have hremK : (((dirs.filter p).filterMap toListedG).filter
          (fun s => !s.named)).Perm K := by
        rw [hrem, ← h2]
        exact (hpermS.filter q).symm
      set base := sumSizes (allSnaps.filter (fun a => !(!a.named))) with hbase
      have hbaseEq : total = base + sumSizes sorted := by
        have hperm2 := List.filter_append_perm (fun s => !s.named) allSnaps
        have hsum := sumSizes_perm hperm2
        rw [sumSizes_append] at hsum
        have hsum_sorted : sumSizes sorted = sumSizes unnamed :=
          sumSizes_perm hpermS
        rw [htotal, hsum_sorted, hbase, hunnamed]
        omega
      have hKbound : K = [] ∨ base + sumSizes K ≤ maxB := by
        rw [hK0, hbaseEq]
        exact evict_bound maxB sorted base
      rcases hKbound with h | h
      · rw [h] at hremK
        exact Or.inr hremK.eq_nil
      · left
        rw [sumSizes_perm hremK]
        omega
    · intro d hd hdel
      rw [hp] at hdel
      obtain ⟨s, hsX, hsome⟩ := deleted_dir_sourceG hnd hXsrc hd hdel
      obtain ⟨m, hm, hnamed, -⟩ := toListedG_meta hsome
      exact ⟨m, hm, by rw [hnamed]; exact hXunnamed s hsX⟩
    · intro d hd hdel md hmd k hk mk hmk hmknamed
      rw [hp] at hdel hk
      obtain ⟨s, hsX, hsome⟩ := deleted_dir_sourceG hnd hXsrc hd hdel
      obtain ⟨m, hm, -, hmts, -⟩ := toListedG_meta hsome
      rw [hmd] at hm
      have hmdm : md = m := Option.some.inj hm
      have hke := toListedG_of_meta hmk
      obtain ⟨ek, hkeq⟩ : ∃ ek, toListedG k = some ek := ⟨_, hke⟩
      obtain ⟨mk2, hmk2, hek_named, hek_ts, -⟩ := toListedG_meta hkeq
      rw [hmk] at hmk2
      have hmkeq : mk = mk2 := Option.some.inj hmk2
      have hkdirs : k ∈ dirs := (List.mem_filter.mp hk).1
      have hekAll : ek ∈ allSnaps := by
        rw [hall]
        exact List.mem_filterMap.mpr ⟨k, hkdirs, hkeq⟩
      have hekn : ek.named = false := by
        rw [← hek_named, ← hmkeq]
        exact hmknamed
      have hekU : ek ∈ unnamed := by
        rw [hunnamed]
        exact List.mem_filter.mpr ⟨hekAll, by simp [hekn]⟩
      have hekS : ek ∈ sorted := hpermS.symm.subset hekU
      have heknotX : ek ∉ X := kept_listed_not_deletedG hk hkeq
      have hekK : ek ∈ K := by
        have h := hekS
        rw [← hsplit] at h
        rcases List.mem_append.mp h with h2 | h2
        · exact absurd h2 heknotX
        · exact h2
      have hrel : ascLe s ek = true := hpair_split s hsX ek hekK
      rw [hmdm, hmts, hmkeq, hek_ts]
      exact hrel

/-- C2: when `create` fails, no directory and no metadata remain and the
last filesystem event is the directory removal; when it succeeds, the
metadata write is the final event (all payload writes precede it, and it
happens exactly once) and the surviving directory carries valid metadata
with the deterministic id; and any directory this call leaves behind has
valid metadata — the "directory exists iff valid metadata" invariant. -/
theorem C2_create_atomic :
    ∀ (cfg : CreateCfg) (w : CreateWorld) (g ts : Str) (pid : Nat)
      (named : Bool) (sz : Nat),
      (createSuccess cfg w = false →
        createFinalDir cfg w g ts pid named sz = none
        ∧ CEvent.metadataEv ∉ createTrace cfg w
        ∧ (createTrace cfg w).getLast? = some CEvent.rmtreeEv)
      ∧ (createSuccess cfg w = true →
        (createTrace cfg w).getLast? = some CEvent.metadataEv
        ∧ CEvent.metadataEv ∉ (createTrace cfg w).dropLast
        ∧ createFinalDir cfg w g ts pid named sz
            = some { game_id := g, dirname := ts,
                     metaFile := MetaFile.valid
                       { id := g ++ '_' :: ts, game_id := g, pid := pid,
                         timestamp := ts, method := createMethodStr cfg w,
                         named := named },
                     size := sz })
      ∧ (∀ d, createFinalDir cfg w g ts pid named sz = some d →
          ∃ m, loadMetadata d.metaFile = some m) := by
  intro cfg w g ts pid named sz
  rcases cfg with ⟨pc, ca, fb⟩
  rcases w with ⟨ck, mk⟩
  cases pc <;> cases ca <;> cases fb <;> cases ck <;> cases mk <;>
    refine ⟨fun hf => ?_, fun hs => ?_, fun d hd => ?_⟩ <;>
    (try simp_all [createSuccess, createTrace, createFinalDir, loadMetadata]) <;>
    (try (rw [← hd]; exact ⟨_, rfl⟩))

/-- C6: a region is saved by the fallback capture exactly when it has read
permission, size at most 100 MiB, and its read succeeds (an individual read
failure only skips that region); the capture fails exactly when zero
regions were saved or the memory map itself was unreadable; and in the
concrete scenario of a 500 MiB readable region plus a 4 KiB readable
region, only the 4 KiB region is saved and the capture still succeeds. -/
theorem C6_fallback_capture_regions :
    (∀ (lines : List MapLine) (r : Region),
      r ∈ savedRegions lines ↔
        (MapLine.region r ∈ lines ∧ r.readable = true
          ∧ r.endAddr - r.startAddr ≤ regionLimit ∧ r.readOk = true))
    ∧ (∀ (mapsReadable : Bool) (lines : List MapLine),
        memSnapshotSuccess mapsReadable lines = false ↔
          (savedRegions lines = [] ∨ mapsReadable = false))
    ∧ savedRegions
        [MapLine.region ⟨0, 500 * 1024 * 1024, true, true⟩,
          MapLine.region ⟨8 * 1024 * 1024 * 1024,
            8 * 1024 * 1024 * 1024 + 4096, true, true⟩]
        = [⟨8 * 1024 * 1024 * 1024, 8 * 1024 * 1024 * 1024 + 4096, true, true⟩]
    ∧ memSnapshotSuccess true
        [MapLine.region ⟨0, 500 * 1024 * 1024, true, true⟩,
          MapLine.region ⟨8 * 1024 * 1024 * 1024,
            8 * 1024 * 1024 * 1024 + 4096, true, true⟩]
        = true := by
  refine ⟨?_, ?_, ?_, ?_⟩
  · intro lines r
    constructor
    · intro h
      obtain ⟨l, hl, hf⟩ := List.mem_filterMap.mp h
      cases l with
      | malformed => simp at hf
      | region r2 =>
        dsimp only at hf
        by_cases hc : (r2.readable = true
            ∧ r2.endAddr - r2.startAddr ≤ regionLimit ∧ r2.readOk = true)
        · rw [if_pos hc] at hf
          have hr2 : r2 = r := Option.some.inj hf
          subst hr2
          exact ⟨hl, hc.1, hc.2.1, hc.2.2⟩
        · rw [if_neg hc] at hf
          exact absurd hf (by simp)
    · rintro ⟨hmem, h1, h2, h3⟩
      exact List.mem_filterMap.mpr
        ⟨MapLine.region r, hmem, by simp [h1, h2, h3]⟩
  · intro mr lines
    rw [memSnapshotSuccess]
    cases mr <;> simp [List.isEmpty_iff]
  · decide
  · decide

theorem mem_rwsTrace_suspend (s k r : Bool) :
    REvent.suspendEv ∈ rwsTrace s k r ↔ s = true := by
  cases s <;> cases k <;> cases r <;> decide

theorem mem_rwsTrace_kill (s k r : Bool) :
    REvent.killEv ∈ rwsTrace s k r ↔ k = true := by
  cases s <;> cases k <;> cases r <;> decide

theorem mem_rwsTrace_resume (s k r : Bool) :
    REvent.resumeEv ∈ rwsTrace s k r ↔ r = true := by
  cases s <;> cases k <;> cases r <;> decide

/-- C7: whenever `restore_with_suspension` suspended the target process, the
continue signal appears in the trace — on success and on restore failure
alike — except when the checkpoint method is the privileged CRIU one, in
which case the target is killed instead and no resumption is attempted. -/
theorem C7_resume_on_every_exit_path :
    ∀ (dirs : List GDir) (sid : Str) (cur : Option Nat)
      (alive : Nat → Bool) (rok : Bool) (snap : Listed),
      (listSnapshots dirs (lookupKey sid)).find? (fun s => s.id == sid)
        = some snap →
      REvent.suspendEv ∈ (restoreWithSuspension dirs sid cur alive rok).2 →
      ((snap.method ≠ methodCriu →
          REvent.resumeEv ∈ (restoreWithSuspension dirs sid cur alive rok).2)
        ∧ (snap.method = methodCriu →
          REvent.resumeEv ∉ (restoreWithSuspension dirs sid cur alive rok).2
          ∧ REvent.killEv ∈ (restoreWithSuspension dirs sid cur alive rok).2)) := by
  intro dirs sid cur alive rok snap hfind hsusp
  simp only [restoreWithSuspension, hfind] at hsusp ⊢
  generalize hT : (match cur with
    | some p => if p = 0 then snap.pid else p
    | none => snap.pid) = t at hsusp ⊢
  rw [mem_rwsTrace_suspend] at hsusp
  simp only [Bool.and_eq_true] at hsusp
  obtain ⟨ht0, hta⟩ := hsusp
  constructor
  · intro hne
    have hisC : (snap.method == methodCriu) = false :=
      beq_eq_false_iff_ne.mpr hne
    rw [mem_rwsTrace_resume, hisC]
    simp [ht0, hta]
  · intro heq
    have hisC : (snap.method == methodCriu) = true := beq_iff_eq.mpr heq
    constructor
    · rw [mem_rwsTrace_resume, hisC]
      simp
    · rw [mem_rwsTrace_kill, hisC]
      simp [ht0]

/-- C8: `delete_snapshot` is idempotent.  A second delete of the same id
returns false and leaves the storage unchanged; the first call returns true
exactly when the id parses and a matching directory exists; a false result
leaves the storage untouched; and after any call the parsed directory is
absent. -/
theorem C8_delete_idempotent :
    ∀ (dirs : List GDir) (sid : Str),
      ((deleteSnapshot (deleteSnapshot dirs sid).2 sid).1 = false
        ∧ (deleteSnapshot (deleteSnapshot dirs sid).2 sid).2
            = (deleteSnapshot dirs sid).2)
      ∧ ((deleteSnapshot dirs sid).1 = true ↔
          ∃ g ts, parseSnapshotId sid = some (g, ts)
            ∧ dirs.any (fun d => d.game_id == g && d.dirname == ts) = true)
      ∧ ((deleteSnapshot dirs sid).1 = false →
          (deleteSnapshot dirs sid).2 = dirs)
      ∧ (∀ g ts, parseSnapshotId sid = some (g, ts) →
          ∀ d ∈ (deleteSnapshot dirs sid).2,
            ¬(d.game_id = g ∧ d.dirname = ts)) := by
  intro dirs sid
  cases hparse : parseSnapshotId sid with
  | none =>
    have hD : deleteSnapshot dirs sid = (false, dirs) := by
      simp only [deleteSnapshot, hparse]
    have hDD : deleteSnapshot (deleteSnapshot dirs sid).2 sid
        = (false, (deleteSnapshot dirs sid).2) := by
      rw [hD]
      exact hD
    refine ⟨⟨by rw [hDD], by rw [hDD]⟩, ?_, fun _ => by rw [hD], ?_⟩
    · constructor
      · intro h
        rw [hD] at h
        exact absurd h (by simp)
      · rintro ⟨g, ts, hp, -⟩
        exact absurd hp (by simp)
    · intro g ts hp
      exact absurd hp (by simp)
  | some gts =>
    obtain ⟨g, ts⟩ := gts
    by_cases hany : dirs.any (fun d => d.game_id == g && d.dirname == ts)
        = true
    · have hD : deleteSnapshot dirs sid
          = (true, dirs.filter
              (fun d => !(d.game_id == g && d.dirname == ts))) := by
        simp only [deleteSnapshot, hparse]
        rw [if_pos hany]
      have hany2 : (dirs.filter
          (fun d => !(d.game_id == g && d.dirname == ts))).any
          (fun d => d.game_id == g && d.dirname == ts) = false := by
        rcases Bool.eq_false_or_eq_true ((dirs.filter
            (fun d => !(d.game_id == g && d.dirname == ts))).any
            (fun d => d.game_id == g && d.dirname == ts)) with h | h
        · obtain ⟨d, hd, hpd⟩ := List.any_eq_true.mp h
          have h2 := (List.mem_filter.mp hd).2
          rw [hpd] at h2
          simp at h2
        · exact h
      have hD2 : deleteSnapshot
          (dirs.filter (fun d => !(d.game_id == g && d.dirname == ts))) sid
          = (false, dirs.filter
              (fun d => !(d.game_id == g && d.dirname == ts))) := by
        have hnot : ¬ ((dirs.filter
            (fun d => !(d.game_id == g && d.dirname == ts))).any
            (fun d => d.game_id == g && d.dirname == ts) = true) := by
          rw [hany2]
          exact Bool.false_ne_true
        simp only [deleteSnapshot, hparse]
        rw [if_neg hnot]
      have hDD : deleteSnapshot (deleteSnapshot dirs sid).2 sid
          = (false, (deleteSnapshot dirs sid).2) := by
        rw [hD]
        exact hD2
      refine ⟨⟨by rw [hDD], by rw [hDD]⟩, ?_, ?_, ?_⟩
      · constructor
        · intro _
          exact ⟨g, ts, rfl, hany⟩
        · intro _
          rw [hD]
      · intro h
        rw [hD] at h
        exact absurd h (by simp)
      · intro g2 ts2 hp d hd hcon
        have hp2 : g = g2 ∧ ts = ts2 := by simpa using hp
        obtain ⟨hg2, hts2⟩ := hp2
        subst hg2
        subst hts2
        rw [hD] at hd
        have hd2 : d ∈ dirs.filter
            (fun d => !(d.game_id == g && d.dirname == ts)) := hd
        have h2 := (List.mem_filter.mp hd2).2
        simp [hcon.1, hcon.2] at h2
    · have hD : deleteSnapshot dirs sid = (false, dirs) := by
        simp only [deleteSnapshot, hparse]
        rw [if_neg hany]
      have hDD : deleteSnapshot (deleteSnapshot dirs sid).2 sid
          = (false, (deleteSnapshot dirs sid).2) := by
        rw [hD]
        exact hD
      refine ⟨⟨by rw [hDD], by rw [hDD]⟩, ?_, fun _ => by rw [hD], ?_⟩
      · constructor
        · intro h
          rw [hD] at h
          exact absurd h (by simp)
        · rintro ⟨g2, ts2, hp, ha⟩
          have hp2 : g = g2 ∧ ts = ts2 := by simpa using hp
          obtain ⟨hg2, hts2⟩ := hp2
          subst hg2
          subst hts2
          exact absurd ha hany
      · intro g2 ts2 hp d hd hcon
        have hp2 : g = g2 ∧ ts = ts2 := by simpa using hp
        obtain ⟨hg2, hts2⟩ := hp2
        subst hg2
        subst hts2
        rw [hD] at hd
        have hd2 : d ∈ dirs := hd
        have hpred : (fun d => d.game_id == g && d.dirname == ts) d
            = true := by
          simp [hcon.1, hcon.2]
        exact hany (List.any_eq_true.mpr ⟨d, hd2, hpred⟩)

/-- C10: an identifier with fewer than two underscores cannot be split into
a subject id plus a two-part timestamp: `rsplit` yields fewer than three
parts, so `restore` and `delete_snapshot` both return false before touching
any checkpoint directory, and `delete_snapshot` leaves the storage
unchanged. -/
theorem C10_short_id_rejected :
    ∀ sid : Str, sid.count '_' < 2 →
      parseSnapshotId sid = none
      ∧ (∀ (dirs : List GDir) (criuOk memOk : Bool),
          restoreOp dirs criuOk memOk sid = false)
      ∧ (∀ dirs : List GDir, deleteSnapshot dirs sid = (false, dirs)) := by
  intro sid h
  have hp := parseSnapshotId_eq_none_of_count_lt h
  refine ⟨hp, ?_, ?_⟩
  · intro dirs c m
    simp only [restoreOp, hp]
  · intro dirs
    simp only [deleteSnapshot, hp]

/-- C1 evaluated at a subject id containing an underscore.  The
right-anchored parser used by `restore` and `delete_snapshot` recovers the
subject and timestamp and resolves the directory `create` wrote, but the
suspension-wrapped restore derives its listing key with a left-anchored
`split("_")[0]`, looks under the wrong subject (`my` instead of `my_game`),
finds nothing, and fails without doing anything — contradicting the claim
that every identifier-parsing operation anchors from the right. -/
theorem C1_left_split_lookup_misses :
    parseSnapshotId sidA = some (gameA, tsA)
    ∧ restoreOp [dirA] true true sidA = true
    ∧ deleteSnapshot [dirA] sidA = (true, [])
    ∧ lookupKey sidA = "my".data
    ∧ listSnapshots [dirA] (lookupKey sidA) = []
    ∧ restoreWithSuspension [dirA] sidA none (fun _ => true) true
        = (false, []) := by
  have hkey : lookupKey sidA = "my".data := by decide
  have h0 : List.filterMap (toListed ("my".data)) [dirA] = [] := by decide
  have hlist : listSnapshots [dirA] (lookupKey sidA) = [] := by
    rw [listSnapshots, hkey, h0, List.mergeSort_nil]
  have hfind : (listSnapshots [dirA] (lookupKey sidA)).find?
      (fun s => s.id == sidA) = none := by
    rw [hlist]
    rfl
  refine ⟨by decide, by decide, by decide, hkey, hlist, ?_⟩
  simp only [restoreWithSuspension, hfind]

theorem C2_create_atomic_witness :
    createSuccess ⟨false, false, true⟩ ⟨false, true⟩ = true
    ∧ (createTrace ⟨false, false, true⟩ ⟨false, true⟩).getLast?
        = some CEvent.metadataEv :=
  ⟨by decide,
    ((C2_create_atomic ⟨false, false, true⟩ ⟨false, true⟩ "g".data "t".data 1
      false 5).2.1 (by decide)).1⟩

theorem C3_rolling_window_retention_witness :
    (([dirB].map pathD).Nodup)
    ∧ ((listSnapshots (cleanupOldSnapshots [dirB] gameB 0) gameB).filter
        (fun s => !s.named)).length
      = min 0 ((listSnapshots [dirB] gameB).filter
        (fun s => !s.named)).length :=
  ⟨by decide, (C3_rolling_window_retention [dirB] gameB 0 (by decide)).1⟩

theorem C4_storage_ceiling_witness :
    (([dirB].map pathD).Nodup)
    ∧ (sumSizes (((cleanupBySize [dirB] 0).filterMap toListedG).filter
        (fun s => !s.named)) ≤ 0
      ∨ ((cleanupBySize [dirB] 0).filterMap toListedG).filter
          (fun s => !s.named) = []) :=
  ⟨by decide, (C4_storage_ceiling [dirB] 0 (by decide)).1⟩

theorem C6_fallback_capture_regions_witness :
    (⟨8 * 1024 * 1024 * 1024, 8 * 1024 * 1024 * 1024 + 4096, true, true⟩ :
        Region)
      ∈ savedRegions
        [MapLine.region ⟨0, 500 * 1024 * 1024, true, true⟩,
          MapLine.region ⟨8 * 1024 * 1024 * 1024,
            8 * 1024 * 1024 * 1024 + 4096, true, true⟩] :=
  (C6_fallback_capture_regions.1 _ _).mpr (by decide)

theorem C7_resume_on_every_exit_path_witness :
    REvent.suspendEv ∈ (restoreWithSuspension [dirB] sidB none
        (fun _ => true) false).2
    ∧ REvent.resumeEv ∈ (restoreWithSuspension [dirB] sidB none
        (fun _ => true) false).2 := by
  have hkey : lookupKey sidB = gameB := by decide
  have h0 : List.filterMap (toListed gameB) [dirB] = [listedB] := by decide
  have hlist : listSnapshots [dirB] (lookupKey sidB) = [listedB] := by
    rw [listSnapshots, hkey, h0, List.mergeSort_singleton]
  have hfind : (listSnapshots [dirB] (lookupKey sidB)).find?
      (fun s => s.id == sidB) = some listedB := by
    rw [hlist]
    decide
  have hsusp : REvent.suspendEv ∈ (restoreWithSuspension [dirB] sidB none
      (fun _ => true) false).2 := by
    simp only [restoreWithSuspension, hfind]
    decide
  exact ⟨hsusp, (C7_resume_on_every_exit_path [dirB] sidB none
    (fun _ => true) false listedB hfind hsusp).1 (by decide)⟩

theorem C8_delete_idempotent_witness :
    (deleteSnapshot (deleteSnapshot [dirB] sidB).2 sidB).1 = false :=
  (C8_delete_idempotent [dirB] sidB).1.1

theorem C10_short_id_rejected_witness :
    ("abc".data.count '_' < 2)
    ∧ parseSnapshotId "abc".data = none
    ∧ deleteSnapshot [dirB] "abc".data = (false, [dirB]) :=
  ⟨by decide, (C10_short_id_rejected "abc".data (by decide)).1,
    (C10_short_id_rejected "abc".data (by decide)).2.2 [dirB]⟩
